import Mathlib

/-!
# Verification of the pc_inventory-app core logic

A shallow embedding of the repository's pure core: the record data model
(`src/types/index.ts`), the Normalizer (`src/lib/inventory-storage.ts`,
`normalizeItem`), the Aggregator (`src/lib/utils.ts`, `calculateProfit` /
`calculateSummary`), the CSV interchange layer (`src/app/page.tsx`,
`serializeCsv` / `parseCsv` / `rowsToItems`) and the cashflow derivation
(`src/app/cashflow/page.tsx`, `collectTransactions` / `buildCashflow`).

JavaScript numbers are modelled as `Int` (all arithmetic in the embedded
code is `+`/`-` on integral amounts); JavaScript strings as Lean `String`
or `List Char` at the character level where the code iterates characters.
-/

/-- `recordType`: variant over the strings `"item"` and `"expense"`
(`src/types/index.ts`). -/
inductive RecordType where
  | item
  | expense
deriving DecidableEq, Repr

/-- `status`: variant over the strings `"在庫"` (in stock) and
`"販売済み"` (sold) (`src/types/index.ts`). -/
inductive ItemStatus where
  | inStock
  | sold
deriving DecidableEq, Repr

/-- `category`: variant over the four strings `"PC本体"`, `"パーツ"`,
`"周辺機器"`, `"その他"` (`src/types/index.ts`). -/
inductive Category where
  | pcBody
  | parts
  | peripheral
  | other
deriving DecidableEq, Repr

/-- The `Item` record of `src/types/index.ts`. `number` fields are
modelled as `Int`; `T | null` fields as `Option T`. -/
structure Item where
  id : String
  recordType : RecordType
  name : String
  category : Category
  purchasePrice : Int
  purchaseDate : String
  miscExpense : Int
  consumableExpense : Int
  sellingPrice : Option Int
  soldDate : Option String
  status : ItemStatus
  memo : String
  createdAt : String
deriving DecidableEq, Repr

/-- The string under the `RecordType` variant. -/
def recordTypeStr : RecordType → String
  | .item => "item"
  | .expense => "expense"

/-- The string under the `ItemStatus` variant. -/
def statusStr : ItemStatus → String
  | .inStock => "在庫"
  | .sold => "販売済み"

/-- The string under the `Category` variant. -/
def categoryStr : Category → String
  | .pcBody => "PC本体"
  | .parts => "パーツ"
  | .peripheral => "周辺機器"
  | .other => "その他"

/-- `calculateProfit` from `src/lib/utils.ts`: `null` for an expense
record or a record with `null` `sellingPrice`, otherwise
`sellingPrice - purchasePrice - (miscExpense + consumableExpense)`
(`x || 0` on an `Int` is the identity, since only `0` is falsy and
`0 || 0 = 0`). -/
def calculateProfit (item : Item) : Option Int :=
  if item.recordType = .expense then none
  else
    match item.sellingPrice with
    | none => none
    | some sp =>
        some (sp - item.purchasePrice - (item.miscExpense + item.consumableExpense))

/-- The `Summary` record of `src/types/index.ts`. The two counts are
`Nat` (lengths of lists); the sums are `Int`. -/
structure Summary where
  totalStock : Nat
  totalSold : Nat
  totalProfit : Int
  stockValue : Int
  totalMiscExpense : Int
  totalConsumableExpense : Int
deriving DecidableEq, Repr

/-- `calculateSummary` from `src/lib/utils.ts`, with `Array.reduce`
rendered as `List.foldl`. -/
def calculateSummary (items : List Item) : Summary :=
  let itemRecords := items.filter (fun item => item.recordType ≠ .expense)
  let stockItems := itemRecords.filter (fun item => item.status = .inStock)
  let soldItems := itemRecords.filter (fun item => item.status = .sold)
  let totalMiscExpense := items.foldl (fun sum item => sum + item.miscExpense) 0
  let totalConsumableExpense :=
    items.foldl (fun sum item => sum + item.consumableExpense) 0
  let totalProfit :=
    soldItems.foldl (fun sum item => sum + (calculateProfit item).getD 0) 0
  let stockValue := stockItems.foldl (fun sum item => sum + item.purchasePrice) 0
  { totalStock := stockItems.length
    totalSold := soldItems.length
    totalProfit := totalProfit
    stockValue := stockValue
    totalMiscExpense := totalMiscExpense
    totalConsumableExpense := totalConsumableExpense }

/-- The first sample record of `src/lib/sample-data.ts` (a sold item:
purchasePrice 15000, miscExpense 500, consumableExpense 300,
sellingPrice 28000). -/
def sampleItem1 : Item :=
  { id := "1"
    recordType := .item
    name := "ThinkPad X1 Carbon"
    category := .pcBody
    purchasePrice := 15000
    purchaseDate := "2025-01-10"
    miscExpense := 500
    consumableExpense := 300
    sellingPrice := some 28000
    soldDate := some "2025-01-18"
    status := .sold
    memo := "第8世代 Core i5 / 8GB RAM"
    createdAt := "2025-01-10T10:00:00Z" }

-- Generic fold-to-sum bridge used to phrase the summary sums spec-side.
theorem foldl_add_eq_sum (f : Item → Int) (l : List Item) (a : Int) :
    l.foldl (fun sum item => sum + f item) a = a + (l.map f).sum := by
  induction l generalizing a with
  | nil => simp
  | cons x xs ih => simp [List.foldl_cons, ih, add_assoc]

-- Two complementary status filters over the non-expense records cover it.
theorem length_filter_status (l : List Item) :
    (l.filter (fun item => item.status = .inStock)).length
      + (l.filter (fun item => item.status = .sold)).length = l.length := by
  induction l with
  | nil => simp
  | cons x xs ih =>
      cases h : x.status <;> simp [List.filter_cons, h] <;> omega

/-- C1: `calculateProfit` returns a value exactly when `recordType = item`
and `sellingPrice` is non-null, and that value is
`sellingPrice - purchasePrice - miscExpense - consumableExpense`; for the
sample sold item (15000/500/300/28000) the profit is 12200. -/
theorem calculateProfit_spec :
    (∀ item : Item,
      ((∃ p, calculateProfit item = some p) ↔
        item.recordType = .item ∧ item.sellingPrice ≠ none)
      ∧ ∀ sp, item.recordType = .item → item.sellingPrice = some sp →
          calculateProfit item =
            some (sp - item.purchasePrice - item.miscExpense
              - item.consumableExpense))
    ∧ calculateProfit sampleItem1 = some 12200 := by
  constructor
  · intro item
    constructor
    · cases hrt : item.recordType <;>
        cases hsp : item.sellingPrice <;>
        simp [calculateProfit, hrt, hsp]
    · intro sp hrt hsp
      simp [calculateProfit, hrt, hsp]
      ring
  · rfl

/-- Closed instance of `calculateProfit_spec` discharging its inner
hypotheses at the sample sold item. -/
theorem calculateProfit_spec_witness :
    calculateProfit sampleItem1 = some (28000 - 15000 - 500 - 300) :=
  (calculateProfit_spec.1 sampleItem1).2 28000 rfl rfl

-- The nested filters of `calculateSummary` commute into one conjunction.
theorem filter_status_rt_swap (items : List Item) (s : ItemStatus) :
    items.filter
        (fun a => decide (a.status = s) && !decide (a.recordType = RecordType.expense))
      = items.filter
        (fun i => !decide (i.recordType = RecordType.expense) && decide (i.status = s)) :=
  List.filter_congr (fun a _ => Bool.and_comm _ _)

/-- C2: `calculateSummary` computes the in-stock and sold counts over the
non-expense records, the profit sum over sold non-expense records
(undefined profit contributing 0), the purchase-price sum over in-stock
non-expense records, and the misc/consumable expense sums over ALL
records, expense rows included. -/
theorem calculateSummary_spec (items : List Item) :
    (calculateSummary items).totalStock =
      (items.filter (fun i => i.recordType ≠ .expense ∧ i.status = .inStock)).length
    ∧ (calculateSummary items).totalSold =
      (items.filter (fun i => i.recordType ≠ .expense ∧ i.status = .sold)).length
    ∧ (calculateSummary items).totalProfit =
      ((items.filter (fun i => i.recordType ≠ .expense ∧ i.status = .sold)).map
        (fun i => (calculateProfit i).getD 0)).sum
    ∧ (calculateSummary items).stockValue =
      ((items.filter (fun i => i.recordType ≠ .expense ∧ i.status = .inStock)).map
        (fun i => i.purchasePrice)).sum
    ∧ (calculateSummary items).totalMiscExpense =
      (items.map (fun i => i.miscExpense)).sum
    ∧ (calculateSummary items).totalConsumableExpense =
      (items.map (fun i => i.consumableExpense)).sum := by
  refine ⟨?_, ?_, ?_, ?_, ?_, ?_⟩ <;>
    simp only [calculateSummary, foldl_add_eq_sum, List.filter_filter, zero_add] <;>
    simp <;>
    rw [filter_status_rt_swap]

/-- C10: every non-expense record is counted in exactly one of
`totalStock`/`totalSold`, so their sum is the number of non-expense
records. -/
theorem summary_stock_add_sold (items : List Item) :
    (calculateSummary items).totalStock + (calculateSummary items).totalSold =
      (items.filter (fun i => i.recordType ≠ .expense)).length := by
  simpa [calculateSummary] using
    length_filter_status (items.filter (fun i => i.recordType ≠ .expense))

/-- An untyped JavaScript value, as far as `normalizeItem` inspects one:
strings, numbers (as `Int`; `NaN` is not modelled), booleans, `null`,
`undefined`, and plain objects as key/value lists (arrays and functions,
which the code would also accept past its `typeof` guard, carry no string
keys after `JSON.parse` and are omitted). -/
inductive JSValue where
  | str (s : String)
  | num (n : Int)
  | boolean (b : Bool)
  | null
  | undefined
  | obj (fields : List (String × JSValue))

/-- Property access `o.k` on a plain object: the stored value, or
`undefined` when the key is absent. -/
def jsGet (fields : List (String × JSValue)) (k : String) : JSValue :=
  (fields.lookup k).getD .undefined

/-- `categorySet.has(s)` from `src/lib/inventory-storage.ts`, returning
the matched `Category` variant. -/
def parseCategory : String → Option Category
  | "PC本体" => some .pcBody
  | "パーツ" => some .parts
  | "周辺機器" => some .peripheral
  | "その他" => some .other
  | _ => none

/-- `statusSet.has(s)`, returning the matched `ItemStatus` variant. -/
def parseStatus : String → Option ItemStatus
  | "在庫" => some .inStock
  | "販売済み" => some .sold
  | _ => none

/-- `recordTypeSet.has(s)`, returning the matched `RecordType` variant. -/
def parseRecordType : String → Option RecordType
  | "item" => some .item
  | "expense" => some .expense
  | _ => none

/-- `normalizeItem` from `src/lib/inventory-storage.ts`. The guard
`!value || typeof value !== "object"` admits exactly plain objects in
this model (`null` is falsy, every other non-object has the wrong
`typeof`); the five required fields are then type-checked and the rest
defaulted. -/
def normalizeItem (value : JSValue) : Option Item :=
  match value with
  | .obj fields =>
    match jsGet fields "id", jsGet fields "name", jsGet fields "purchasePrice",
        jsGet fields "purchaseDate", jsGet fields "createdAt" with
    | .str id, .str name, .num purchasePrice, .str purchaseDate, .str createdAt =>
      let category : Category :=
        match jsGet fields "category" with
        | .str s => (parseCategory s).getD .other
        | _ => .other
      let status : ItemStatus :=
        match jsGet fields "status" with
        | .str s => (parseStatus s).getD .inStock
        | _ => .inStock
      let recordType : RecordType :=
        match jsGet fields "recordType" with
        | .str s => (parseRecordType s).getD .item
        | _ => .item
      let sellingPrice : Option Int :=
        match jsGet fields "sellingPrice" with
        | .num n => some n
        | _ => none
      let soldDate : Option String :=
        match jsGet fields "soldDate" with
        | .str s => some s
        | _ => none
      let miscExpense : Int :=
        match jsGet fields "miscExpense" with
        | .num n => n
        | _ => 0
      let consumableExpense : Int :=
        match jsGet fields "consumableExpense" with
        | .num n => n
        | _ => 0
      let memo : String :=
        match jsGet fields "memo" with
        | .str s => s
        | _ => ""
      some { id, recordType, name, category, purchasePrice, purchaseDate,
             miscExpense, consumableExpense, sellingPrice, soldDate, status,
             memo, createdAt }
    | _, _, _, _, _ => none
  | _ => none

/-- The five required-field checks of `normalizeItem`, phrased as the
spec words them: each field present with the correct primitive type. -/
def requiredOk (fields : List (String × JSValue)) : Prop :=
  (∃ s, jsGet fields "id" = .str s) ∧ (∃ s, jsGet fields "name" = .str s)
    ∧ (∃ n, jsGet fields "purchasePrice" = .num n)
    ∧ (∃ s, jsGet fields "purchaseDate" = .str s)
    ∧ (∃ s, jsGet fields "createdAt" = .str s)

/-- An `Item` handed back to JavaScript as an untyped value (the identity
embedding: enum variants become their strings, `Option` fields become the
value or `null`). -/
def itemToJS (r : Item) : JSValue :=
  .obj [("id", .str r.id),
        ("recordType", .str (recordTypeStr r.recordType)),
        ("name", .str r.name),
        ("category", .str (categoryStr r.category)),
        ("purchasePrice", .num r.purchasePrice),
        ("purchaseDate", .str r.purchaseDate),
        ("miscExpense", .num r.miscExpense),
        ("consumableExpense", .num r.consumableExpense),
        ("sellingPrice", match r.sellingPrice with | some n => .num n | none => .null),
        ("soldDate", match r.soldDate with | some s => .str s | none => .null),
        ("status", .str (statusStr r.status)),
        ("memo", .str r.memo),
        ("createdAt", .str r.createdAt)]

/-- C5: `normalizeItem` is total and returns `none` exactly when the
input is not a plain object or one of the five required fields (`id`,
`name`, `purchasePrice`, `purchaseDate`, `createdAt`) is absent or has
the wrong primitive type; on success every optional field is defaulted
as the spec lists (`category` → catch-all unless one of the 4 known
values, `status` → in-stock, `recordType` → item, `sellingPrice`/
`soldDate` → null, `miscExpense`/`consumableExpense` → 0, `memo` → ""). -/
theorem normalizeItem_spec :
    (∀ v : JSValue, (∀ fields, v ≠ .obj fields) → normalizeItem v = none)
    ∧ (∀ fields, (normalizeItem (.obj fields)).isSome ↔ requiredOk fields)
    ∧ (∀ fields r, normalizeItem (.obj fields) = some r →
        r.category = (match jsGet fields "category" with
          | .str s => (parseCategory s).getD .other
          | _ => .other)
        ∧ r.status = (match jsGet fields "status" with
          | .str s => (parseStatus s).getD .inStock
          | _ => .inStock)
        ∧ r.recordType = (match jsGet fields "recordType" with
          | .str s => (parseRecordType s).getD .item
          | _ => .item)
        ∧ r.sellingPrice = (match jsGet fields "sellingPrice" with
          | .num n => some n
          | _ => none)
        ∧ r.soldDate = (match jsGet fields "soldDate" with
          | .str s => some s
          | _ => none)
        ∧ r.miscExpense = (match jsGet fields "miscExpense" with
          | .num n => n
          | _ => 0)
        ∧ r.consumableExpense = (match jsGet fields "consumableExpense" with
          | .num n => n
          | _ => 0)
        ∧ r.memo = (match jsGet fields "memo" with
          | .str s => s
          | _ => "")) := by
  refine ⟨?_, ?_, ?_⟩
  · intro v h
    cases v <;> first | rfl | exact absurd rfl (h _)
  · intro fields
    constructor
    · intro h
      simp only [normalizeItem] at h
      split at h
      · next id name pp pd ca hid hname hpp hpd hca =>
          exact ⟨⟨_, hid⟩, ⟨_, hname⟩, ⟨_, hpp⟩, ⟨_, hpd⟩, ⟨_, hca⟩⟩
      · simp at h
    · rintro ⟨⟨s1, h1⟩, ⟨s2, h2⟩, ⟨n3, h3⟩, ⟨s4, h4⟩, ⟨s5, h5⟩⟩
      simp [normalizeItem, h1, h2, h3, h4, h5]
  · intro fields r h
    simp only [normalizeItem] at h
    split at h
    · rw [Option.some.injEq] at h
      subst h
      exact ⟨rfl, rfl, rfl, rfl, rfl, rfl, rfl, rfl⟩
    · simp at h

/-- Closed instance of `normalizeItem_spec`: a five-field object passes
the required checks and all defaults are as described. -/
theorem normalizeItem_spec_witness :
    (normalizeItem (.obj [("id", .str "a"), ("name", .str "n"),
      ("purchasePrice", .num 1), ("purchaseDate", .str "2025-01-01"),
      ("createdAt", .str "2025-01-01T00:00:00Z")])).isSome :=
  (normalizeItem_spec.2.1 _).mpr
    ⟨⟨_, rfl⟩, ⟨_, rfl⟩, ⟨_, rfl⟩, ⟨_, rfl⟩, ⟨_, rfl⟩⟩

/-- C8: the Normalizer does not enforce the expense invariant — when the
required checks pass and `recordType = "expense"`, the given
`purchasePrice` is passed through unchanged and `sellingPrice`/`soldDate`
are still taken from the input rather than forced to null. -/
theorem normalizeItem_expense_passthrough :
    ∀ fields r, normalizeItem (.obj fields) = some r →
      r.recordType = .expense →
      (∀ n, jsGet fields "purchasePrice" = .num n → r.purchasePrice = n)
      ∧ (∀ n, jsGet fields "sellingPrice" = .num n → r.sellingPrice = some n)
      ∧ (∀ s, jsGet fields "soldDate" = .str s → r.soldDate = some s) := by
  intro fields r h _
  simp only [normalizeItem] at h
  split at h
  · next id name pp pd ca hid hname hpp hpd hca =>
      rw [Option.some.injEq] at h
      subst h
      refine ⟨?_, ?_, ?_⟩
      · intro n hn
        rw [hpp] at hn
        cases hn
        rfl
      · intro n hn
        simp [hn]
      · intro s hs
        simp [hs]
  · simp at h

/-- The record the Normalizer produces from an expense input carrying a
nonzero `purchasePrice` and sale fields. -/
def expenseWitnessItem : Item :=
  { id := "e", recordType := .expense, name := "fee", category := .other,
    purchasePrice := 15000, purchaseDate := "2025-01-01", miscExpense := 0,
    consumableExpense := 0, sellingPrice := some 5,
    soldDate := some "2025-02-01", status := .inStock, memo := "",
    createdAt := "t" }

/-- Closed instance of `normalizeItem_expense_passthrough`: an expense
record keeps its nonzero `purchasePrice` and its sale fields. -/
theorem normalizeItem_expense_passthrough_witness :
    expenseWitnessItem.purchasePrice = 15000
      ∧ expenseWitnessItem.sellingPrice = some 5
      ∧ expenseWitnessItem.soldDate = some "2025-02-01" := by
  obtain ⟨h1, h2, h3⟩ :=
    normalizeItem_expense_passthrough
      [("id", .str "e"), ("name", .str "fee"),
       ("purchasePrice", .num 15000), ("purchaseDate", .str "2025-01-01"),
       ("createdAt", .str "t"), ("recordType", .str "expense"),
       ("sellingPrice", .num 5), ("soldDate", .str "2025-02-01")]
      expenseWitnessItem rfl rfl
  exact ⟨h1 15000 rfl, h2 5 rfl, h3 "2025-02-01" rfl⟩

-- Renormalizing a well-typed record reproduces it exactly.
theorem normalizeItem_itemToJS (r : Item) : normalizeItem (itemToJS r) = some r := by
  obtain ⟨id, rt, name, cat, pp, pd, me, ce, sp, sd, st, memo, ca⟩ := r
  cases rt <;> cases cat <;> cases st <;> cases sp <;> cases sd <;> rfl

/-- C9: the Normalizer is idempotent on its successful outputs — feeding
a produced record back in returns the same record field-for-field. -/
theorem normalizeItem_idempotent :
    ∀ v r, normalizeItem v = some r → normalizeItem (itemToJS r) = some r :=
  fun _ r _ => normalizeItem_itemToJS r

/-- Closed instance of `normalizeItem_idempotent` at a concrete object. -/
theorem normalizeItem_idempotent_witness :
    normalizeItem (itemToJS
      { id := "a", recordType := .item, name := "n", category := .other,
        purchasePrice := 1, purchaseDate := "2025-01-01", miscExpense := 0,
        consumableExpense := 0, sellingPrice := none, soldDate := none,
        status := .inStock, memo := "", createdAt := "t" }) = some
      { id := "a", recordType := .item, name := "n", category := .other,
        purchasePrice := 1, purchaseDate := "2025-01-01", miscExpense := 0,
        consumableExpense := 0, sellingPrice := none, soldDate := none,
        status := .inStock, memo := "", createdAt := "t" } :=
  normalizeItem_idempotent (.obj [("id", .str "a"), ("name", .str "n"),
    ("purchasePrice", .num 1), ("purchaseDate", .str "2025-01-01"),
    ("createdAt", .str "t")]) _ rfl

/-! ## Decimal rendering of JavaScript numbers

`String(n)` on an integral JS number prints its decimal digits (with a
leading `-` when negative); `Number(s)` parses them back. Both directions
are modelled at the character level. -/

/-- The character for a decimal digit. -/
def decDigit (n : Nat) : Char := Char.ofNat (48 + n)

/-- Fuel-driven digit worker; the fuel only bounds the recursion depth
and is irrelevant once it is at least the input (kept structural so
concrete values reduce inside `decide`). -/
def natCharsGo : Nat → Nat → List Char
  | 0, n => [decDigit n]
  | fuel + 1, n =>
      if n < 10 then [decDigit n]
      else natCharsGo fuel (n / 10) ++ [decDigit (n % 10)]

/-- The decimal digits of a natural number, most significant first. -/
def natChars (n : Nat) : List Char := natCharsGo n n

theorem natCharsGo_irrel :
    ∀ f1 f2 n, n ≤ f1 → n ≤ f2 → natCharsGo f1 n = natCharsGo f2 n := by
  intro f1
  induction f1 with
  | zero =>
      intro f2 n h1 _
      interval_cases n
      cases f2 <;> simp [natCharsGo]
  | succ f1 ih =>
      intro f2 n h1 h2
      cases f2 with
      | zero =>
          interval_cases n
          simp [natCharsGo]
      | succ f2 =>
          by_cases h : n < 10
          · simp [natCharsGo, h]
          · have hd : n / 10 ≤ f1 := by omega

            have hd2 : n / 10 ≤ f2 := by omega
            simp only [natCharsGo, if_neg h]
            rw [ih f2 (n / 10) hd hd2]

theorem natChars_unfold (n : Nat) :
    natChars n =
      if n < 10 then [decDigit n]
      else natChars (n / 10) ++ [decDigit (n % 10)] := by
  by_cases h : n < 10
  · rw [if_pos h]
    cases n <;> simp [natChars, natCharsGo, h]
  · rw [if_neg h]
    cases n with
    | zero => omega
    | succ k =>
        show natCharsGo (k + 1) (k + 1) = _
        rw [natCharsGo, if_neg h]
        unfold natChars
        rw [natCharsGo_irrel k ((k + 1) / 10) ((k + 1) / 10) (by omega) (by omega)]

/-- The numeric value of a decimal digit character, if it is one. -/
def digitVal? (c : Char) : Option Nat :=
  if 48 ≤ c.toNat ∧ c.toNat ≤ 57 then some (c.toNat - 48) else none

/-- Accumulating decimal parse over a character list. -/
def charsToNatAux : Nat → List Char → Option Nat
  | acc, [] => some acc
  | acc, c :: cs =>
      match digitVal? c with
      | some d => charsToNatAux (acc * 10 + d) cs
      | none => none

/-- Decimal parse of a nonempty all-digit character list. -/
def charsToNat? (cs : List Char) : Option Nat :=
  if cs = [] then none else charsToNatAux 0 cs

/-- `String(i)` for an integral JS number. -/
def intChars (i : Int) : List Char :=
  if i < 0 then '-' :: natChars i.natAbs else natChars i.toNat

/-- Integer parse: the model of `Number(s)` on the integral decimal
strings this app writes (fractional, hex, and whitespace forms of JS
`Number` do not occur in them and are treated as unparseable). -/
def charsToInt? (cs : List Char) : Option Int :=
  match cs with
  | [] => none
  | c :: rest =>
      if c = '-' then (charsToNat? rest).map (fun n => -(n : Int))
      else (charsToNatAux 0 (c :: rest)).map (fun n => (n : Int))

theorem decDigit_toNat {d : Nat} (h : d ≤ 9) : (decDigit d).toNat = 48 + d := by
  interval_cases d <;> rfl

theorem digitVal?_decDigit {d : Nat} (h : d ≤ 9) : digitVal? (decDigit d) = some d := by
  interval_cases d <;> rfl

theorem natChars_ne_nil (n : Nat) : natChars n ≠ [] := by
  rw [natChars_unfold]
  split <;> simp

theorem natChars_mem_digit (n : Nat) : ∀ c ∈ natChars n, 48 ≤ c.toNat ∧ c.toNat ≤ 57 := by
  induction n using Nat.strong_induction_on with
  | _ n ih =>
    intro c hc
    rw [natChars_unfold] at hc
    split at hc
    · next h =>
        simp at hc
        subst hc
        rw [decDigit_toNat (by omega)]
        omega
    · next h =>
        simp at hc
        rcases hc with hc | hc
        · exact ih (n / 10) (Nat.div_lt_self (by omega) (by omega)) c hc
        · subst hc
          rw [decDigit_toNat (by omega)]
          omega

theorem charsToNatAux_append (acc : Nat) (l1 l2 : List Char) :
    charsToNatAux acc (l1 ++ l2) =
      match charsToNatAux acc l1 with
      | some a => charsToNatAux a l2
      | none => none := by
  induction l1 generalizing acc with
  | nil => simp [charsToNatAux]
  | cons c cs ih =>
      simp only [List.cons_append, charsToNatAux]
      cases digitVal? c <;> simp [ih]

theorem charsToNatAux_natChars (n : Nat) :
    ∀ acc, charsToNatAux acc (natChars n) =
      some (acc * 10 ^ (natChars n).length + n) := by
  induction n using Nat.strong_induction_on with
  | _ n ih =>
    intro acc
    by_cases h : n < 10
    · rw [natChars_unfold, if_pos h]
      simp [charsToNatAux, digitVal?_decDigit (by omega : n ≤ 9)]
    · rw [natChars_unfold, if_neg h, charsToNatAux_append,
        ih (n / 10) (Nat.div_lt_self (by omega) (by omega)) acc]
      simp only [charsToNatAux, digitVal?_decDigit (by omega : n % 10 ≤ 9),
        List.length_append, List.length_cons, List.length_nil, Nat.zero_add,
        pow_succ, Option.some.injEq]
      rw [← mul_assoc]
      generalize acc * 10 ^ (natChars (n / 10)).length = k
      omega

theorem charsToNat?_natChars (n : Nat) : charsToNat? (natChars n) = some n := by
  rw [charsToNat?, if_neg (natChars_ne_nil n), charsToNatAux_natChars]
  simp

theorem charsToInt?_intChars (i : Int) : charsToInt? (intChars i) = some i := by
  by_cases h : i < 0
  · rw [intChars, if_pos h]
    have hs : charsToInt? ('-' :: natChars i.natAbs) =
        (charsToNat? (natChars i.natAbs)).map (fun n => -(n : Int)) := by
      simp [charsToInt?]
    rw [hs, charsToNat?_natChars]
    show some (-(i.natAbs : Int)) = some i
    congr 1
    omega
  · rw [intChars, if_neg h]
    obtain ⟨c, cs, hcs⟩ : ∃ c cs, natChars i.toNat = c :: cs := by
      cases hn : natChars i.toNat with
      | nil => exact absurd hn (natChars_ne_nil _)
      | cons c cs => exact ⟨c, cs, rfl⟩
    have hdig := natChars_mem_digit i.toNat c (by rw [hcs]; simp)
    have hnotdash : c ≠ '-' := by
      intro hd
      subst hd
      simp at hdig
    rw [hcs, charsToInt?, if_neg hnotdash, ← hcs]
    have := charsToNat?_natChars i.toNat
    rw [charsToNat?, if_neg (natChars_ne_nil _)] at this
    rw [this]
    show some ((i.toNat : Int)) = some i
    congr 1
    omega

theorem natChars_injective {a b : Nat} (h : natChars a = natChars b) : a = b := by
  have ha := charsToNat?_natChars a
  rw [h, charsToNat?_natChars b] at ha
  exact (Option.some.injEq _ _).mp ha.symm

/-- A cash event row, the `Transaction` type of
`src/app/cashflow/page.tsx`. -/
structure Transaction where
  date : String
  income : Int
  expense : Int
  category : Category
deriving DecidableEq, Repr

/-- `collectTransactions` from `src/app/cashflow/page.tsx`. The guard
`item.sellingPrice && item.soldDate` is JavaScript truthiness: a
`sellingPrice` of `0` and a `soldDate` of `""` are falsy, so they
suppress the inflow event even though both fields are non-null. -/
def collectTransactions (items : List Item) : List Transaction :=
  items.flatMap (fun item =>
    if item.recordType = .expense then
      [{ date := item.purchaseDate, income := 0,
         expense := item.miscExpense + item.consumableExpense,
         category := item.category }]
    else
      { date := item.purchaseDate, income := 0,
        expense := item.purchasePrice + item.miscExpense + item.consumableExpense,
        category := item.category } ::
      (match item.sellingPrice, item.soldDate with
       | some sp, some sd =>
           if sp ≠ 0 ∧ sd ≠ "" then
             [{ date := sd, income := sp, expense := 0, category := item.category }]
           else []
       | _, _ => []))

/-- The item whose inflow the original claim C4 predicts and the code
does not emit: `sellingPrice` is the (set, non-null) number `0`. -/
def zeroPriceItem : Item :=
  { id := "cex", recordType := .item, name := "x", category := .other,
    purchasePrice := 100, purchaseDate := "2025-01-10", miscExpense := 0,
    consumableExpense := 0, sellingPrice := some 0,
    soldDate := some "2025-01-18", status := .sold, memo := "",
    createdAt := "t" }

/-- Counterexample to C4 as stated: `sellingPrice` and `soldDate` are
both set, yet only the outflow event is derived — there is no inflow
event (with income 0) at the sold date. -/
theorem collectTransactions_zero_price_no_inflow :
    zeroPriceItem.sellingPrice = some 0
    ∧ zeroPriceItem.soldDate = some "2025-01-18"
    ∧ collectTransactions [zeroPriceItem] =
        [{ date := "2025-01-10", income := 0, expense := 100,
           category := .other }] :=
  ⟨rfl, rfl, by decide⟩

/-- C4 (amended): per record, an expense record yields one combined
expense event at `purchaseDate`; an item record yields an outflow event
at `purchaseDate` for `purchasePrice + miscExpense + consumableExpense`,
plus an inflow event at `soldDate` for `sellingPrice` exactly when
`sellingPrice` is set and non-zero and `soldDate` is set and non-empty
(JS truthiness), and the collector is the per-record concatenation. -/
theorem collectTransactions_spec :
    (∀ item : Item, item.recordType = .expense →
      collectTransactions [item] =
        [{ date := item.purchaseDate, income := 0,
           expense := item.miscExpense + item.consumableExpense,
           category := item.category }])
    ∧ (∀ (item : Item) (sp : Int) (sd : String), item.recordType = .item →
        item.sellingPrice = some sp → item.soldDate = some sd →
        sp ≠ 0 → sd ≠ "" →
        collectTransactions [item] =
          [{ date := item.purchaseDate, income := 0,
             expense := item.purchasePrice + item.miscExpense
               + item.consumableExpense,
             category := item.category },
           { date := sd, income := sp, expense := 0,
             category := item.category }])
    ∧ (∀ item : Item, item.recordType = .item →
        (item.sellingPrice = none ∨ item.sellingPrice = some 0
          ∨ item.soldDate = none ∨ item.soldDate = some "") →
        collectTransactions [item] =
          [{ date := item.purchaseDate, income := 0,
             expense := item.purchasePrice + item.miscExpense
               + item.consumableExpense,
             category := item.category }])
    ∧ (∀ items : List Item,
        collectTransactions items =
          items.flatMap (fun i => collectTransactions [i])) := by
  refine ⟨?_, ?_, ?_, ?_⟩
  · intro item h
    simp [collectTransactions, h]
  · intro item sp sd hrt hsp hsd hsp0 hsd0
    simp [collectTransactions, hrt, hsp, hsd, hsp0, hsd0]
  · intro item hrt hcase
    rcases hcase with h | h | h | h <;>
      cases hsp : item.sellingPrice <;>
      cases hsd : item.soldDate <;>
      simp_all [collectTransactions, hrt]
  · intro items
    simp [collectTransactions]

/-- Closed instance of `collectTransactions_spec` at the sample sold
item, discharging the truthiness hypotheses. -/
theorem collectTransactions_spec_witness :
    collectTransactions [sampleItem1] =
      [{ date := sampleItem1.purchaseDate, income := 0,
         expense := sampleItem1.purchasePrice + sampleItem1.miscExpense
           + sampleItem1.consumableExpense,
         category := sampleItem1.category },
       { date := "2025-01-18", income := 28000, expense := 0,
         category := sampleItem1.category }] :=
  collectTransactions_spec.2.1 sampleItem1 28000 "2025-01-18" rfl rfl rfl
    (by decide) (by decide)

/-- Model of `new Date(s)` / `Number.isNaN(date.getTime())` /
`getFullYear()` / `getMonth() + 1` from `src/app/cashflow/page.tsx`,
restricted to the ISO `YYYY-MM-DD` date-only strings this app produces
(HTML date inputs and the sample data): four digits, a dash, two digits
`01`–`12`, a dash, two digits `01`–`31`. Every other string is treated
as an invalid date, answering `none` where the code returns early on
`NaN`. Returns the (year, month) pair the bucketing uses. -/
def parseDate? (s : String) : Option (Nat × Nat) :=
  match s.data with
  | [y1, y2, y3, y4, '-', m1, m2, '-', d1, d2] =>
    match digitVal? y1, digitVal? y2, digitVal? y3, digitVal? y4,
        digitVal? m1, digitVal? m2, digitVal? d1, digitVal? d2 with
    | some a, some b, some c, some d, some e, some f, some g, some hh =>
      let year := ((a * 10 + b) * 10 + c) * 10 + d
      let month := e * 10 + f
      let day := g * 10 + hh
      if 1 ≤ month ∧ month ≤ 12 ∧ 1 ≤ day ∧ day ≤ 31 then
        some (year, month)
      else none
    | _, _, _, _, _, _, _, _ => none
  | _ => none

/-- `String(month).padStart(2, "0")`. -/
def pad2 (n : Nat) : List Char :=
  if (natChars n).length < 2 then '0' :: natChars n else natChars n

/-- The caller-selected bucketing granularity. -/
inductive Granularity where
  | month
  | year
deriving DecidableEq, Repr

/-- The bucket key: zero-padded `YYYY-MM`, or `YYYY`. -/
def bucketKey (g : Granularity) (year month : Nat) : String :=
  match g with
  | .month => ⟨natChars year ++ '-' :: pad2 month⟩
  | .year => ⟨natChars year⟩

/-- The bucket label: `getYearMonthLabel` / `getYearLabel` (unpadded
month). -/
def bucketLabel (g : Granularity) (year month : Nat) : String :=
  match g with
  | .month => ⟨natChars year⟩ ++ "年" ++ ⟨natChars month⟩ ++ "月"
  | .year => ⟨natChars year⟩ ++ "年"

/-- An entry of the insertion-ordered `Map` inside `buildCashflow`. -/
structure CashBucket where
  key : String
  label : String
  income : Int
  expense : Int
deriving DecidableEq, Repr

/-- A row of the cashflow board (`CashflowRow`). -/
structure CashflowRow where
  key : String
  label : String
  income : Int
  expense : Int
  net : Int
deriving DecidableEq, Repr

/-- `map.get(key) ?? fresh` / `map.set(key, current)` on a JavaScript
`Map`, which preserves insertion order: updating an existing key keeps
its position, a fresh key is appended. -/
def mapAdd : List CashBucket → String → String → Int → Int → List CashBucket
  | [], key, label, inc, exp => [⟨key, label, inc, exp⟩]
  | b :: rest, key, label, inc, exp =>
      if b.key = key then
        { b with income := b.income + inc, expense := b.expense + exp } :: rest
      else b :: mapAdd rest key label inc exp

/-- The `add` closure of `buildCashflow`: parse the date, drop the event
when invalid, otherwise accumulate under the granularity's key. -/
def addTx (g : Granularity) (m : List CashBucket) (t : Transaction) :
    List CashBucket :=
  match parseDate? t.date with
  | none => m
  | some (year, month) =>
      mapAdd m (bucketKey g year month) (bucketLabel g year month)
        t.income t.expense

/-- `buildCashflow` from `src/app/cashflow/page.tsx`: fold the events
into the insertion-ordered map, attach `net = income - expense`, then
sort by key descending (`(a, b) => b.key.localeCompare(a.key)`, a stable
comparator sort modelled by `mergeSort`). -/
def buildCashflow (transactions : List Transaction) (g : Granularity) :
    List CashflowRow :=
  ((transactions.foldl (addTx g) []).map
      (fun b => ⟨b.key, b.label, b.income, b.expense, b.income - b.expense⟩)).mergeSort
    (fun a b => decide (b.key ≤ a.key))

/-- C6: a cash event whose date does not parse is silently excluded from
bucketing — deleting it from the transaction list leaves every bucket
unchanged — while `calculateSummary` never reads `purchaseDate` at all:
rewriting every record's date arbitrarily leaves all six aggregates
unchanged. -/
theorem invalid_date_excluded :
    (∀ (ts1 ts2 : List Transaction) (t : Transaction) (g : Granularity),
      parseDate? t.date = none →
      buildCashflow (ts1 ++ t :: ts2) g = buildCashflow (ts1 ++ ts2) g)
    ∧ (∀ (items : List Item) (f : Item → String),
      calculateSummary (items.map (fun i => { i with purchaseDate := f i }))
        = calculateSummary items) := by
  constructor
  · intro ts1 ts2 t g h
    have : ∀ m, List.foldl (addTx g) m (t :: ts2) = List.foldl (addTx g) m ts2 := by
      intro m
      simp [List.foldl_cons, addTx, h]
    simp [buildCashflow, List.foldl_append, this]
  · intro items f
    simp only [calculateSummary, List.filter_map, List.foldl_map,
      List.length_map]
    rfl

/-- Closed instance of `invalid_date_excluded` at an unparseable date. -/
theorem invalid_date_excluded_witness :
    buildCashflow
        [{ date := "2025-01-10", income := 0, expense := 7, category := .other },
         { date := "not-a-date", income := 5, expense := 0, category := .other }]
        .month
      = buildCashflow
        [{ date := "2025-01-10", income := 0, expense := 7, category := .other }]
        .month :=
  invalid_date_excluded.1
    [{ date := "2025-01-10", income := 0, expense := 7, category := .other }]
    [] { date := "not-a-date", income := 5, expense := 0, category := .other }
    .month rfl

theorem parseDate?_month_bounds {s : String} {y mo : Nat}
    (h : parseDate? s = some (y, mo)) : 1 ≤ mo ∧ mo ≤ 12 := by
  unfold parseDate? at h
  split at h
  · split at h
    · dsimp only at h
      split at h
      · next hc =>
          rw [Option.some.injEq, Prod.mk.injEq] at h
          omega
      · exact absurd h (by simp)
    · exact absurd h (by simp)
  · exact absurd h (by simp)

theorem pad2_length_two {m : Nat} (h1 : 1 ≤ m) (h2 : m ≤ 12) :
    (pad2 m).length = 2 := by
  interval_cases m <;> decide

theorem pad2_inj {a b : Nat} (ha1 : 1 ≤ a) (ha2 : a ≤ 12) (hb1 : 1 ≤ b)
    (hb2 : b ≤ 12) (h : pad2 a = pad2 b) : a = b := by
  interval_cases a <;> interval_cases b <;> revert h <;> decide

theorem bucketKey_month_inj {y1 mo1 y2 mo2 : Nat}
    (h1 : 1 ≤ mo1) (h2 : mo1 ≤ 12) (h3 : 1 ≤ mo2) (h4 : mo2 ≤ 12)
    (h : bucketKey .month y1 mo1 = bucketKey .month y2 mo2) :
    y1 = y2 ∧ mo1 = mo2 := by
  have hd : natChars y1 ++ '-' :: pad2 mo1 = natChars y2 ++ '-' :: pad2 mo2 :=
    congrArg String.data h
  have hlen : ('-' :: pad2 mo1).length = ('-' :: pad2 mo2).length := by
    simp [pad2_length_two h1 h2, pad2_length_two h3 h4]
  obtain ⟨hy, hm⟩ := List.append_inj' hd hlen
  refine ⟨natChars_injective hy, pad2_inj h1 h2 h3 h4 ?_⟩
  injection hm

-- Equal bucket keys force equal bucket labels (within parser month bounds).
theorem bucketLabel_congr {g : Granularity} {y1 mo1 y2 mo2 : Nat}
    (h1 : 1 ≤ mo1) (h2 : mo1 ≤ 12) (h3 : 1 ≤ mo2) (h4 : mo2 ≤ 12)
    (h : bucketKey g y1 mo1 = bucketKey g y2 mo2) :
    bucketLabel g y1 mo1 = bucketLabel g y2 mo2 := by
  cases g
  · obtain ⟨hy, hm⟩ := bucketKey_month_inj h1 h2 h3 h4 h
    subst hy
    subst hm
    rfl
  · have hy := natChars_injective (congrArg String.data h)
    subst hy
    rfl

theorem mapAdd_keys (m : List CashBucket) (k lb : String) (i e : Int) :
    (mapAdd m k lb i e).map CashBucket.key =
      if k ∈ m.map CashBucket.key then m.map CashBucket.key
      else m.map CashBucket.key ++ [k] := by
  induction m with
  | nil => simp [mapAdd]
  | cons b rest ih =>
      by_cases h : b.key = k
      · rw [if_pos (by simp [h])]
        simp [mapAdd, if_pos h]
      · simp only [mapAdd, if_neg h, List.map_cons, ih]
        by_cases hm : k ∈ rest.map CashBucket.key
        · rw [if_pos hm, if_pos (by simp [hm])]
        · rw [if_neg hm, if_neg (by
            simp [hm]
            exact fun hk => h hk.symm),
            List.cons_append]

theorem mapAdd_nodup {m : List CashBucket} (k lb : String) (i e : Int)
    (h : (m.map CashBucket.key).Nodup) :
    ((mapAdd m k lb i e).map CashBucket.key).Nodup := by
  rw [mapAdd_keys]
  split
  · exact h
  · next hm =>
      simp only [List.nodup_append, List.nodup_cons]
      exact ⟨h, by simp, by simpa using hm⟩

theorem mapAdd_not_mem (m : List CashBucket) (k lb : String) (i e : Int)
    (h : k ∉ m.map CashBucket.key) :
    mapAdd m k lb i e = m ++ [⟨k, lb, i, e⟩] := by
  induction m with
  | nil => simp [mapAdd]
  | cons b rest ih =>
      simp only [List.map_cons, List.mem_cons] at h
      push_neg at h
      have hb : ¬ b.key = k := fun hb => h.1 hb.symm
      simp [mapAdd, hb, ih h.2]

/-- The in-place update applied to the one entry holding the key. -/
def updBucket (k : String) (i e : Int) (b : CashBucket) : CashBucket :=
  if b.key = k then { b with income := b.income + i, expense := b.expense + e }
  else b

theorem map_updBucket_id {m : List CashBucket} {k : String} (i e : Int)
    (h : k ∉ m.map CashBucket.key) : m.map (updBucket k i e) = m := by
  induction m with
  | nil => rfl
  | cons b rest ih =>
      simp only [List.map_cons, List.mem_cons] at h
      push_neg at h
      have hb : ¬ b.key = k := fun hb => h.1 hb.symm
      simp [updBucket, hb, ih h.2]

theorem mapAdd_mem (m : List CashBucket) (k lb : String) (i e : Int)
    (hnd : (m.map CashBucket.key).Nodup) (h : k ∈ m.map CashBucket.key) :
    mapAdd m k lb i e = m.map (updBucket k i e) := by
  induction m with
  | nil => simp at h
  | cons b rest ih =>
      simp only [List.map_cons, List.nodup_cons] at hnd
      by_cases hb : b.key = k
      · subst hb
        simp [mapAdd, updBucket, map_updBucket_id i e hnd.1]
      · simp only [List.map_cons, List.mem_cons] at h
        rcases h with h | h
        · exact absurd h.symm hb
        · simp [mapAdd, if_neg hb, updBucket, if_neg hb, ih hnd.2 h]

theorem mapAdd_perm {m1 m2 : List CashBucket} (k lb : String) (i e : Int)
    (hp : m1.Perm m2) (hnd : (m1.map CashBucket.key).Nodup) :
    (mapAdd m1 k lb i e).Perm (mapAdd m2 k lb i e) := by
  have hkeys : (m1.map CashBucket.key).Perm (m2.map CashBucket.key) :=
    hp.map CashBucket.key
  have hnd2 : (m2.map CashBucket.key).Nodup := hkeys.nodup_iff.mp hnd
  by_cases h : k ∈ m1.map CashBucket.key
  · rw [mapAdd_mem m1 k lb i e hnd h,
      mapAdd_mem m2 k lb i e hnd2 (hkeys.mem_iff.mp h)]
    exact hp.map _
  · rw [mapAdd_not_mem m1 k lb i e h,
      mapAdd_not_mem m2 k lb i e (fun hm => h (hkeys.mem_iff.mpr hm))]
    exact hp.append_right _

theorem mapAdd_mapAdd_same (m : List CashBucket) (k lb : String)
    (i1 e1 i2 e2 : Int) :
    mapAdd (mapAdd m k lb i1 e1) k lb i2 e2 =
      mapAdd (mapAdd m k lb i2 e2) k lb i1 e1 := by
  induction m with
  | nil =>
      simp only [mapAdd, List.cons.injEq, CashBucket.mk.injEq, and_true,
        true_and, if_pos]
      omega
  | cons b rest ih =>
      by_cases h : b.key = k
      · simp only [mapAdd, if_pos h, List.cons.injEq, CashBucket.mk.injEq,
          true_and, and_true, and_self, eq_self_iff_true]
        omega
      · simp only [mapAdd, if_neg h, ih]

theorem mapAdd_mapAdd_comm (m : List CashBucket) {k1 k2 : String}
    (lb1 lb2 : String) (i1 e1 i2 e2 : Int) (hk : k1 ≠ k2) :
    (mapAdd (mapAdd m k1 lb1 i1 e1) k2 lb2 i2 e2).Perm
      (mapAdd (mapAdd m k2 lb2 i2 e2) k1 lb1 i1 e1) := by
  induction m with
  | nil =>
      simp only [mapAdd, if_neg hk, if_neg (Ne.symm hk)]
      exact List.Perm.swap _ _ _
  | cons b rest ih =>
      by_cases h1 : b.key = k1
      · have h2 : ¬ b.key = k2 := fun hb => hk (h1 ▸ hb)
        simp only [mapAdd, if_pos h1, if_neg h2, if_pos h1]
        exact List.Perm.refl _
      · by_cases h2 : b.key = k2
        · simp only [mapAdd, if_neg h1, if_pos h2]
          exact List.Perm.refl _
        · simp only [mapAdd, if_neg h1, if_neg h2]
          exact ih.cons b

theorem addTx_none {g : Granularity} {m : List CashBucket} {t : Transaction}
    (h : parseDate? t.date = none) : addTx g m t = m := by
  simp [addTx, h]

theorem addTx_some {g : Granularity} {m : List CashBucket} {t : Transaction}
    {y mo : Nat} (h : parseDate? t.date = some (y, mo)) :
    addTx g m t =
      mapAdd m (bucketKey g y mo) (bucketLabel g y mo) t.income t.expense := by
  simp [addTx, h]

theorem addTx_nodup {g : Granularity} {m : List CashBucket} {t : Transaction}
    (h : (m.map CashBucket.key).Nodup) :
    ((addTx g m t).map CashBucket.key).Nodup := by
  cases hp : parseDate? t.date with
  | none => rw [addTx_none hp]; exact h
  | some p =>
      obtain ⟨y, mo⟩ := p
      rw [addTx_some hp]
      exact mapAdd_nodup _ _ _ _ h

theorem addTx_perm {g : Granularity} {m1 m2 : List CashBucket}
    {t : Transaction} (hp : m1.Perm m2) (hnd : (m1.map CashBucket.key).Nodup) :
    (addTx g m1 t).Perm (addTx g m2 t) := by
  cases hd : parseDate? t.date with
  | none => rw [addTx_none hd, addTx_none hd]; exact hp
  | some p =>
      obtain ⟨y, mo⟩ := p
      rw [addTx_some hd, addTx_some hd]
      exact mapAdd_perm _ _ _ _ hp hnd

theorem addTx_swap (g : Granularity) (m : List CashBucket) (t1 t2 : Transaction) :
    (addTx g (addTx g m t1) t2).Perm (addTx g (addTx g m t2) t1) := by
  cases hp1 : parseDate? t1.date with
  | none => rw [addTx_none hp1, addTx_none hp1]
  | some p1 =>
      cases hp2 : parseDate? t2.date with
      | none => rw [addTx_none hp2, addTx_none hp2]
      | some p2 =>
          obtain ⟨y1, mo1⟩ := p1
          obtain ⟨y2, mo2⟩ := p2
          simp only [addTx_some hp1, addTx_some hp2]
          by_cases hk : bucketKey g y1 mo1 = bucketKey g y2 mo2
          · have hb1 := parseDate?_month_bounds hp1
            have hb2 := parseDate?_month_bounds hp2
            have hl := bucketLabel_congr hb1.1 hb1.2 hb2.1 hb2.2 hk
            rw [← hk, ← hl, mapAdd_mapAdd_same]
          · exact mapAdd_mapAdd_comm m _ _ _ _ _ _ hk

theorem foldl_addTx_congr (g : Granularity) :
    ∀ (ts : List Transaction) {m1 m2 : List CashBucket}, m1.Perm m2 →
      (m1.map CashBucket.key).Nodup →
      (ts.foldl (addTx g) m1).Perm (ts.foldl (addTx g) m2) := by
  intro ts
  induction ts with
  | nil => intro m1 m2 hp _; exact hp
  | cons t ts ih =>
      intro m1 m2 hp hnd
      simp only [List.foldl_cons]
      exact ih (addTx_perm hp hnd) (addTx_nodup hnd)

theorem foldl_addTx_nodup (g : Granularity) :
    ∀ (ts : List Transaction) (m : List CashBucket),
      (m.map CashBucket.key).Nodup →
      ((ts.foldl (addTx g) m).map CashBucket.key).Nodup := by
  intro ts
  induction ts with
  | nil => intro m h; exact h
  | cons t ts ih => intro m h; exact ih _ (addTx_nodup h)

theorem foldl_addTx_perm (g : Granularity) {ts ts' : List Transaction}
    (hp : ts.Perm ts') :
    ∀ m : List CashBucket, (m.map CashBucket.key).Nodup →
      (ts.foldl (addTx g) m).Perm (ts'.foldl (addTx g) m) := by
  induction hp with
  | nil => intro m _; exact .refl _
  | cons x _ ih =>
      intro m hnd
      simp only [List.foldl_cons]
      exact ih _ (addTx_nodup hnd)
  | swap x y l =>
      intro m hnd
      simp only [List.foldl_cons]
      exact foldl_addTx_congr g l (addTx_swap g m y x)
        (addTx_nodup (addTx_nodup hnd))
  | trans _ _ ih1 ih2 =>
      intro m hnd
      exact (ih1 m hnd).trans (ih2 m hnd)

-- Keys of the produced rows are pairwise distinct.
theorem buildCashflow_key_nodup (ts : List Transaction) (g : Granularity) :
    ((buildCashflow ts g).map CashflowRow.key).Nodup := by
  have h1 : ((ts.foldl (addTx g) []).map CashBucket.key).Nodup :=
    foldl_addTx_nodup g ts [] (by simp)
  have h2 : (((ts.foldl (addTx g) []).map
      (fun b => CashflowRow.mk b.key b.label b.income b.expense
        (b.income - b.expense))).map CashflowRow.key)
      = (ts.foldl (addTx g) []).map CashBucket.key := by
    rw [List.map_map]
    rfl
  have hperm :=
    (List.mergeSort_perm ((ts.foldl (addTx g) []).map
      (fun b => CashflowRow.mk b.key b.label b.income b.expense
        (b.income - b.expense)))
      (fun a b => decide (b.key ≤ a.key))).map CashflowRow.key
  exact hperm.nodup_iff.mpr (h2 ▸ h1)

-- The output is strictly descending in its keys.
theorem buildCashflow_sorted_strict (ts : List Transaction) (g : Granularity) :
    (buildCashflow ts g).Pairwise (fun a b => b.key < a.key) := by
  have hsorted :=
    @List.sorted_mergeSort CashflowRow (fun a b => decide (b.key ≤ a.key))
      (fun a b c hab hbc => by
        simp only [decide_eq_true_eq] at hab hbc ⊢
        exact le_trans hbc hab)
      (fun a b => by
        simp only [Bool.or_eq_true, decide_eq_true_eq]
        exact le_total b.key a.key)
      ((ts.foldl (addTx g) []).map
        (fun b => CashflowRow.mk b.key b.label b.income b.expense
          (b.income - b.expense)))
  have hle : (buildCashflow ts g).Pairwise (fun a b => b.key ≤ a.key) :=
    hsorted.imp (fun h => by simpa using h)
  have hne : (buildCashflow ts g).Pairwise (fun a b => a.key ≠ b.key) :=
    List.pairwise_map.mp (buildCashflow_key_nodup ts g)
  exact (hle.and hne).imp
    (fun h => lt_of_le_of_ne h.1 (fun he => h.2 he.symm))

/-- C7: `buildCashflow` yields the canonical bucket list — permuting the
input transactions leaves the output exactly unchanged, rows are sorted
strictly descending by their zero-padded key, and each row's net is
income minus expense. -/
theorem buildCashflow_canonical :
    (∀ (ts ts' : List Transaction) (g : Granularity), ts.Perm ts' →
        buildCashflow ts g = buildCashflow ts' g)
    ∧ (∀ (ts : List Transaction) (g : Granularity),
        (buildCashflow ts g).Pairwise (fun a b => b.key < a.key))
    ∧ (∀ (ts : List Transaction) (g : Granularity) (r : CashflowRow),
        r ∈ buildCashflow ts g → r.net = r.income - r.expense) := by
  refine ⟨?_, buildCashflow_sorted_strict, ?_⟩
  · intro ts ts' g hp
    have hb := foldl_addTx_perm g hp [] (by simp)
    have hrows := hb.map
      (fun b => CashflowRow.mk b.key b.label b.income b.expense
        (b.income - b.expense))
    have hperm : (buildCashflow ts g).Perm (buildCashflow ts' g) :=
      ((List.mergeSort_perm _ _).trans hrows).trans
        (List.mergeSort_perm _ _).symm
    haveI : IsAntisymm CashflowRow (fun a b => b.key < a.key) :=
      ⟨fun a b h1 h2 => absurd (lt_trans h1 h2) (lt_irrefl _)⟩
    exact List.eq_of_perm_of_sorted hperm (buildCashflow_sorted_strict ts g)
      (buildCashflow_sorted_strict ts' g)
  · intro ts g r hr
    have hr2 := (List.mergeSort_perm _ _).mem_iff.mp hr
    obtain ⟨b, _, rfl⟩ := List.mem_map.mp hr2
    rfl

/-- Closed instance of `buildCashflow_canonical`, discharging the
permutation hypothesis at two concrete transaction lists. -/
theorem buildCashflow_canonical_witness :
    buildCashflow
        [{ date := "2025-01-10", income := 0, expense := 7, category := .other },
         { date := "2025-02-01", income := 9, expense := 0, category := .parts }]
        .month
      = buildCashflow
        [{ date := "2025-02-01", income := 9, expense := 0, category := .parts },
         { date := "2025-01-10", income := 0, expense := 7, category := .other }]
        .month :=
  buildCashflow_canonical.1 _ _ .month (by decide)

/-! ## The CSV interchange layer (`src/app/page.tsx`)

Strings are handled at the character level (`List Char`), matching the
source's character loop; `String(value)` on numbers is `intChars` and
`Number(value)` is `charsToInt?` above. -/

/-- `CSV_HEADERS`, the fixed 13-column header. -/
def csvHeaders : List String :=
  ["id", "recordType", "name", "category", "purchasePrice", "purchaseDate",
   "miscExpense", "consumableExpense", "sellingPrice", "soldDate", "status",
   "memo", "createdAt"]

/-- `value.replace(/"/g, '""')`. -/
def doubleQuotes : List Char → List Char
  | [] => []
  | c :: cs =>
      if c = '"' then '"' :: '"' :: doubleQuotes cs else c :: doubleQuotes cs

/-- `escapeCsvValue`: wrap in quotes when the field contains a quote,
comma or newline, doubling internal quotes. -/
def escapeCsvValue (s : List Char) : List Char :=
  if '"' ∈ s ∨ ',' ∈ s ∨ '\n' ∈ s then '"' :: (doubleQuotes s ++ ['"'])
  else s

/-- `toCsvRow` (the `null → ""` coercion already happened in
`itemCells`). -/
def toCsvRow (cells : List (List Char)) : List Char :=
  List.intercalate [','] (cells.map escapeCsvValue)

/-- The 13 cells of one exported row, in header order: `String(value)`
for numbers, the empty cell for `null`. -/
def itemCells (item : Item) : List (List Char) :=
  [item.id.data, (recordTypeStr item.recordType).data, item.name.data,
   (categoryStr item.category).data, intChars item.purchasePrice,
   item.purchaseDate.data, intChars item.miscExpense,
   intChars item.consumableExpense,
   (match item.sellingPrice with | some n => intChars n | none => []),
   (match item.soldDate with | some s => s.data | none => []),
   (statusStr item.status).data, item.memo.data, item.createdAt.data]

/-- `serializeCsv`: the raw header join, then one row per item, joined
with `\n`. -/
def serializeCsv (items : List Item) : List Char :=
  List.intercalate ['\n']
    (List.intercalate [','] (csvHeaders.map String.data)
      :: items.map (fun item => toCsvRow (itemCells item)))

/-- The character loop of `parseCsv` (state: in-quotes flag, current
cell, current row); completed rows are emitted in order, and the final
cell/row is pushed at end of input exactly as the source does after its
loop. -/
def parseCsvAux : List Char → Bool → List Char → List (List Char) →
    List (List (List Char))
  | [], _, value, current => [current ++ [value]]
  | c :: cs, true, value, current =>
      if c = '"' then
        match cs with
        | '"' :: cs2 => parseCsvAux cs2 true (value ++ ['"']) current
        | cs' => parseCsvAux cs' false value current
      else parseCsvAux cs true (value ++ [c]) current
  | c :: cs, false, value, current =>
      if c = '"' then parseCsvAux cs true value current
      else if c = ',' then parseCsvAux cs false [] (current ++ [value])
      else if c = '\n' then (current ++ [value]) :: parseCsvAux cs false [] []
      else if c = '\r' then parseCsvAux cs false value current
      else parseCsvAux cs false (value ++ [c]) current

/-- The whitespace characters `String.prototype.trim` strips (the ASCII
ones; no other trimmable code points occur in this data). -/
def isJsSpace (c : Char) : Bool :=
  c = ' ' ∨ c = '\t' ∨ c = '\n' ∨ c = '\r' ∨ c = '\x0b' ∨ c = '\x0c'

/-- `value.trim()`. -/
def jsTrim (s : List Char) : List Char :=
  ((s.dropWhile isJsSpace).reverse.dropWhile isJsSpace).reverse

/-- `parseCsv`: run the loop, then drop rows whose every cell trims to
the empty string. -/
def parseCsv (text : List Char) : List (List (List Char)) :=
  (parseCsvAux text false [] []).filter
    (fun row => row.any (fun cell => jsTrim cell ≠ []))

/-- `Number(value)` on a cell, coerced into the untyped value handed to
the Normalizer. A cell that is not an integral decimal string yields JS
`NaN` — still `typeof number`; `NaN` has no `Int` image and cannot occur
for the cells this app writes, so it is modelled as `null` (making the
row be rejected rather than carry `NaN`). -/
def csvNumber (cell : List Char) : JSValue :=
  match charsToInt? cell with
  | some n => .num n
  | none => .null

/-- The raw object `rowsToItems` builds from one row: `row[index] ?? ""`
per header, the three price columns parsing `""` as 0, `sellingPrice`
parsing `""` as null, everything else kept as a string. -/
def rawOfRow (row : List (List Char)) : JSValue :=
  .obj (csvHeaders.enum.map (fun p =>
    (p.2,
      if p.2 = "purchasePrice" ∨ p.2 = "miscExpense"
          ∨ p.2 = "consumableExpense" then
        (if row.getD p.1 [] = [] then .num 0 else csvNumber (row.getD p.1 []))
      else if p.2 = "sellingPrice" then
        (if row.getD p.1 [] = [] then .null else csvNumber (row.getD p.1 []))
      else .str ⟨row.getD p.1 []⟩)))

/-- `rowsToItems`: skip the first row exactly when its trimmed cells
joined with `,` equal the joined expected header, then normalize each
remaining row, dropping rejects. -/
def rowsToItems (rows : List (List (List Char))) : List Item :=
  match rows with
  | [] => []
  | headerRow :: _ =>
      let start :=
        if List.intercalate [','] (headerRow.map jsTrim)
            = List.intercalate [','] (csvHeaders.map String.data)
        then 1 else 0
      (rows.drop start).flatMap
        (fun row => (normalizeItem (rawOfRow row)).toList)

/-- The one field the round trip does not preserve: a null `soldDate` is
written as the empty cell and read back as the string `""`. -/
def fixSoldDate (item : Item) : Item :=
  { item with soldDate := some (item.soldDate.getD "") }

/-- No carriage returns in the record's string fields: an unquoted `\r`
is silently dropped by the parser. -/
def noCR (item : Item) : Prop :=
  '\r' ∉ item.id.data ∧ '\r' ∉ item.name.data
    ∧ '\r' ∉ item.purchaseDate.data ∧ '\r' ∉ (item.soldDate.getD "").data
    ∧ '\r' ∉ item.memo.data ∧ '\r' ∉ item.createdAt.data

theorem parseCsvAux_openq (cs : List Char) (value : List Char)
    (current : List (List Char)) :
    parseCsvAux ('"' :: cs) false value current
      = parseCsvAux cs true value current := by
  simp [parseCsvAux]

theorem parseCsvAux_comma (cs : List Char) (value : List Char)
    (current : List (List Char)) :
    parseCsvAux (',' :: cs) false value current
      = parseCsvAux cs false [] (current ++ [value]) := by
  simp [parseCsvAux]

theorem parseCsvAux_nl (cs : List Char) (value : List Char)
    (current : List (List Char)) :
    parseCsvAux ('\n' :: cs) false value current
      = (current ++ [value]) :: parseCsvAux cs false [] [] := by
  simp [parseCsvAux]

theorem parseCsvAux_other {c : Char} (cs : List Char) (value : List Char)
    (current : List (List Char)) (h1 : c ≠ '"') (h2 : c ≠ ',')
    (h3 : c ≠ '\n') (h4 : c ≠ '\r') :
    parseCsvAux (c :: cs) false value current
      = parseCsvAux cs false (value ++ [c]) current := by
  simp [parseCsvAux, h1, h2, h3, h4]

theorem parseCsvAux_inq_qq (cs : List Char) (value : List Char)
    (current : List (List Char)) :
    parseCsvAux ('"' :: '"' :: cs) true value current
      = parseCsvAux cs true (value ++ ['"']) current := by
  simp [parseCsvAux]

theorem parseCsvAux_inq_close {cs : List Char} (value : List Char)
    (current : List (List Char)) (h : cs.head? ≠ some '"') :
    parseCsvAux ('"' :: cs) true value current
      = parseCsvAux cs false value current := by
  cases cs with
  | nil => simp [parseCsvAux]
  | cons c cs2 =>
      have hc : c ≠ '"' := by simpa using h
      rw [parseCsvAux.eq_def]
      simp only [if_pos]
      split
      · next cs3 heq =>
          rw [List.cons.injEq] at heq
          exact absurd heq.1 hc
      · rfl

theorem parseCsvAux_inq_other {c : Char} (cs : List Char) (value : List Char)
    (current : List (List Char)) (h : c ≠ '"') :
    parseCsvAux (c :: cs) true value current
      = parseCsvAux cs true (value ++ [c]) current := by
  rw [parseCsvAux.eq_def]
  simp [h]

-- Consuming an unquoted cell appends its characters to the value.
theorem parseCsvAux_plain (s : List Char)
    (h : ∀ c ∈ s, c ≠ '"' ∧ c ≠ ',' ∧ c ≠ '\n' ∧ c ≠ '\r') :
    ∀ (rest value : List Char) (current : List (List Char)),
      parseCsvAux (s ++ rest) false value current
        = parseCsvAux rest false (value ++ s) current := by
  induction s with
  | nil => intro rest value current; simp
  | cons c cs ih =>
      intro rest value current
      obtain ⟨h1, h2, h3, h4⟩ := h c (by simp)
      rw [List.cons_append, parseCsvAux_other _ _ _ h1 h2 h3 h4,
        ih (fun c hc => h c (by simp [hc])) rest]
      simp

-- Consuming doubled quoted content up to the closing quote.
theorem parseCsvAux_quoted (s : List Char) :
    ∀ (rest value : List Char) (current : List (List Char)),
      rest.head? ≠ some '"' →
      parseCsvAux (doubleQuotes s ++ '"' :: rest) true value current
        = parseCsvAux rest false (value ++ s) current := by
  induction s with
  | nil =>
      intro rest value current hr
      simp only [doubleQuotes, List.nil_append]
      rw [parseCsvAux_inq_close value current hr]
      simp
  | cons c cs ih =>
      intro rest value current hr
      by_cases hc : c = '"'
      · subst hc
        simp only [doubleQuotes, eq_self_iff_true, if_true, List.cons_append]
        rw [parseCsvAux_inq_qq, ih rest (value ++ ['"']) current hr]
        simp
      · simp only [doubleQuotes, if_neg hc, List.cons_append]
        rw [parseCsvAux_inq_other _ _ _ hc, ih rest (value ++ [c]) current hr]
        simp

-- Consuming one escaped cell (carriage returns excluded for unquoted
-- cells, where the parser would drop them).
theorem parseCsvAux_cell (s : List Char) (hcr : '\r' ∉ s) :
    ∀ (rest value : List Char) (current : List (List Char)),
      rest.head? ≠ some '"' →
      parseCsvAux (escapeCsvValue s ++ rest) false value current
        = parseCsvAux rest false (value ++ s) current := by
  intro rest value current hr
  unfold escapeCsvValue
  split
  · next hq =>
      rw [show ('"' :: (doubleQuotes s ++ ['"'])) ++ rest
          = '"' :: (doubleQuotes s ++ '"' :: rest) from by simp,
        parseCsvAux_openq]
      exact parseCsvAux_quoted s rest value current hr
  · next hq =>
      push_neg at hq
      refine parseCsvAux_plain s (fun c hc => ?_) rest value current
      refine ⟨fun he => hq.1 (he ▸ hc), fun he => hq.2.1 (he ▸ hc),
        fun he => hq.2.2 (he ▸ hc), fun he => hcr (he ▸ hc)⟩

theorem toCsvRow_single (a : List Char) : toCsvRow [a] = escapeCsvValue a := by
  simp [toCsvRow, List.intercalate]

theorem toCsvRow_cons (a b : List Char) (l : List (List Char)) :
    toCsvRow (a :: b :: l) = escapeCsvValue a ++ ',' :: toCsvRow (b :: l) := by
  simp [toCsvRow, List.intercalate, List.intersperse]

-- Consuming a full row followed by a newline emits exactly that row.
theorem parseCsvAux_row_nl (cs : List (List Char)) :
    ∀ (c : List Char), (∀ cell ∈ c :: cs, '\r' ∉ cell) →
      ∀ (rest value : List Char) (current : List (List Char)),
        parseCsvAux (toCsvRow (c :: cs) ++ '\n' :: rest) false value current
          = (current ++ (value ++ c) :: cs) :: parseCsvAux rest false [] [] := by
  induction cs with
  | nil =>
      intro c hcr rest value current
      rw [toCsvRow_single,
        parseCsvAux_cell c (hcr c (by simp)) ('\n' :: rest) value current
          (by simp),
        parseCsvAux_nl]
  | cons c2 cs ih =>
      intro c hcr rest value current
      rw [toCsvRow_cons,
        show (escapeCsvValue c ++ ',' :: toCsvRow (c2 :: cs)) ++ '\n' :: rest
          = escapeCsvValue c ++ ',' :: (toCsvRow (c2 :: cs) ++ '\n' :: rest)
          from by simp,
        parseCsvAux_cell c (hcr c (by simp)) _ value current (by simp),
        parseCsvAux_comma,
        ih c2 (fun cell hc => hcr cell (by simp [hc])) rest []
          (current ++ [value ++ c])]
      simp

-- Consuming a final row (no trailing newline) emits it and ends.
theorem parseCsvAux_row_end (cs : List (List Char)) :
    ∀ (c : List Char), (∀ cell ∈ c :: cs, '\r' ∉ cell) →
      ∀ (value : List Char) (current : List (List Char)),
        parseCsvAux (toCsvRow (c :: cs)) false value current
          = [current ++ (value ++ c) :: cs] := by
  induction cs with
  | nil =>
      intro c hcr value current
      rw [show toCsvRow [c] = escapeCsvValue c ++ [] from by
          simp [toCsvRow_single],
        parseCsvAux_cell c (hcr c (by simp)) [] value current (by simp)]
      rfl
  | cons c2 cs ih =>
      intro c hcr value current
      rw [toCsvRow_cons,
        show escapeCsvValue c ++ ',' :: toCsvRow (c2 :: cs)
          = escapeCsvValue c ++ ',' :: toCsvRow (c2 :: cs) from rfl,
        parseCsvAux_cell c (hcr c (by simp)) _ value current (by simp),
        parseCsvAux_comma,
        ih c2 (fun cell hc => hcr cell (by simp [hc])) []
          (current ++ [value ++ c])]
      simp

-- Parsing the serialized form of nonempty rows reproduces them.
theorem parseCsvAux_file (rows : List (List (List Char)))
    (hrows : rows ≠ [])
    (hne : ∀ row ∈ rows, row ≠ [])
    (hcr : ∀ row ∈ rows, ∀ cell ∈ row, '\r' ∉ cell) :
    parseCsvAux (List.intercalate ['\n'] (rows.map toCsvRow)) false [] []
      = rows := by
  induction rows with
  | nil => exact absurd rfl hrows
  | cons row rows ih =>
      obtain ⟨c, cs, rfl⟩ : ∃ c cs, row = c :: cs := by
        cases row with
        | nil => exact absurd rfl (hne [] (by simp))
        | cons c cs => exact ⟨c, cs, rfl⟩
      cases rows with
      | nil =>
          rw [show List.intercalate ['\n'] ([c :: cs].map toCsvRow)
              = toCsvRow (c :: cs) from by simp [List.intercalate],
            parseCsvAux_row_end cs c (hcr _ (by simp)) [] []]
          simp
      | cons row2 rows2 =>
          rw [show List.intercalate ['\n']
                (((c :: cs) :: row2 :: rows2).map toCsvRow)
              = toCsvRow (c :: cs) ++ '\n'
                :: List.intercalate ['\n'] ((row2 :: rows2).map toCsvRow)
              from by simp [List.intercalate, List.intersperse],
            parseCsvAux_row_nl cs c (hcr _ (by simp)) _ [] [],
            ih (by simp) (fun r hr => hne r (by simp [hr]))
              (fun r hr => hcr r (by simp [hr]))]
          simp

theorem intChars_ne_nil (i : Int) : intChars i ≠ [] := by
  unfold intChars
  split
  · simp
  · exact natChars_ne_nil _

theorem intChars_mem (i : Int) :
    ∀ c ∈ intChars i, c = '-' ∨ (48 ≤ c.toNat ∧ c.toNat ≤ 57) := by
  unfold intChars
  split
  · intro c hc
    rcases List.mem_cons.mp hc with h | h
    · exact .inl h
    · exact .inr (natChars_mem_digit _ c h)
  · intro c hc
    exact .inr (natChars_mem_digit _ c hc)

theorem intChars_no_cr (i : Int) : '\r' ∉ intChars i := by
  intro h
  rcases intChars_mem i '\r' h with h | h
  · exact absurd h (by decide)
  · revert h
    decide

theorem dropWhile_no (p : Char → Bool) :
    ∀ s : List Char, (∀ c ∈ s, p c = false) → List.dropWhile p s = s := by
  intro s h
  cases s with
  | nil => rfl
  | cons c cs => simp [List.dropWhile_cons, h c (by simp)]

theorem jsTrim_eq_self {s : List Char} (h : ∀ c ∈ s, isJsSpace c = false) :
    jsTrim s = s := by
  unfold jsTrim
  rw [dropWhile_no _ s h,
    dropWhile_no _ s.reverse (fun c hc => h c (by simpa using hc)),
    List.reverse_reverse]

theorem isJsSpace_intChars (i : Int) :
    ∀ c ∈ intChars i, isJsSpace c = false := by
  intro c hc
  rcases intChars_mem i c hc with h | h
  · subst h
    decide
  · unfold isJsSpace
    simp only [decide_eq_false_iff_not]
    push_neg
    refine ⟨?_, ?_, ?_, ?_, ?_, ?_⟩ <;>
      (intro he; subst he; revert h; decide)

theorem jsTrim_intChars (i : Int) : jsTrim (intChars i) = intChars i :=
  jsTrim_eq_self (isJsSpace_intChars i)

-- The header names need no quoting.
theorem escape_headers :
    (csvHeaders.map String.data).map escapeCsvValue
      = csvHeaders.map String.data := by decide

theorem itemCells_no_cr {item : Item} (h : noCR item) :
    ∀ cell ∈ itemCells item, '\r' ∉ cell := by
  obtain ⟨h1, h2, h3, h4, h5, h6⟩ := h
  intro cell hc
  simp only [itemCells, List.mem_cons, List.not_mem_nil, or_false] at hc
  rcases hc with rfl | rfl | rfl | rfl | rfl | rfl | rfl | rfl | rfl | rfl
    | rfl | rfl | rfl
  · exact h1
  · cases item.recordType <;> decide
  · exact h2
  · cases item.category <;> decide
  · exact intChars_no_cr _
  · exact h3
  · exact intChars_no_cr _
  · exact intChars_no_cr _
  · cases item.sellingPrice with
    | none => simp
    | some n => exact intChars_no_cr _
  · cases hsd : item.soldDate with
    | none => simp
    | some s => simpa [hsd] using h4
  · cases item.status <;> decide
  · exact h5
  · exact h6

theorem parseCsv_serialize (items : List Item)
    (hcr : ∀ item ∈ items, noCR item) :
    parseCsv (serializeCsv items)
      = (csvHeaders.map String.data) :: items.map itemCells := by
  unfold parseCsv serializeCsv
  rw [show List.intercalate [','] (csvHeaders.map String.data)
      = toCsvRow (csvHeaders.map String.data) from by
        rw [toCsvRow, escape_headers],
    show (toCsvRow (csvHeaders.map String.data)
        :: items.map (fun item => toCsvRow (itemCells item)))
      = ((csvHeaders.map String.data) :: items.map itemCells).map toCsvRow
      from by simp [List.map_map],
    parseCsvAux_file _ (by simp)
      (by
        intro row hr
        rcases List.mem_cons.mp hr with rfl | hr
        · decide
        · obtain ⟨item, _, rfl⟩ := List.mem_map.mp hr
          simp [itemCells])
      (by
        intro row hr
        rcases List.mem_cons.mp hr with rfl | hr
        · decide
        · obtain ⟨item, hitem, rfl⟩ := List.mem_map.mp hr
          exact itemCells_no_cr (hcr item hitem))]
  refine List.filter_eq_self.mpr ?_
  intro row hr
  rcases List.mem_cons.mp hr with rfl | hr
  · decide
  · obtain ⟨item, _, rfl⟩ := List.mem_map.mp hr
    refine List.any_eq_true.mpr ?_
    refine ⟨intChars item.purchasePrice, by simp [itemCells], ?_⟩
    simp [jsTrim_intChars, intChars_ne_nil]

theorem parseCategory_categoryStr (c : Category) :
    parseCategory (categoryStr c) = some c := by cases c <;> rfl

theorem parseStatus_statusStr (s : ItemStatus) :
    parseStatus (statusStr s) = some s := by cases s <;> rfl

theorem parseRecordType_recordTypeStr (r : RecordType) :
    parseRecordType (recordTypeStr r) = some r := by cases r <;> rfl

theorem strMk_data (s : String) : String.mk s.data = s := rfl

-- Re-importing one exported row normalizes back to the record, up to
-- the null-soldDate coercion.
theorem normalizeItem_rawOfRow (item : Item) :
    normalizeItem (rawOfRow (itemCells item)) = some (fixSoldDate item) := by
  obtain ⟨id, rt, name, cat, pp, pd, me, ce, sp, sd, st, memo, ca⟩ := item
  cases sp <;> cases sd <;>
    simp [rawOfRow, csvHeaders, List.enum, List.enumFrom, itemCells,
      intChars_ne_nil, csvNumber, charsToInt?_intChars, normalizeItem,
      jsGet, List.lookup, strMk_data, parseCategory_categoryStr,
      parseStatus_statusStr, parseRecordType_recordTypeStr, fixSoldDate]

theorem flatMap_normalize (items : List Item) :
    (items.map itemCells).flatMap
        (fun row => (normalizeItem (rawOfRow row)).toList)
      = items.map fixSoldDate := by
  induction items with
  | nil => rfl
  | cons i is ih => simp [normalizeItem_rawOfRow, ih]

/-- C3 (amended): exporting records whose string fields contain no
carriage return and re-importing through the CSV parser and the
Normalizer reproduces the list field-for-field, except that a null
`soldDate` comes back as the empty string. -/
theorem csv_roundtrip_spec (items : List Item)
    (h : ∀ item ∈ items, noCR item) :
    rowsToItems (parseCsv (serializeCsv items)) = items.map fixSoldDate := by
  rw [parseCsv_serialize items h]
  simp only [rowsToItems]
  rw [if_pos (by decide)]
  simp only [List.drop_succ_cons, List.drop_zero]
  exact flatMap_normalize items

/-- Closed instance of `csv_roundtrip_spec` at the sample sold item
(whose `soldDate` is non-null, so it round-trips exactly). -/
theorem csv_roundtrip_spec_witness :
    rowsToItems (parseCsv (serializeCsv [sampleItem1]))
      = [sampleItem1].map fixSoldDate :=
  csv_roundtrip_spec [sampleItem1] (by
    intro item hi
    rcases List.mem_singleton.mp hi with rfl
    exact ⟨by decide, by decide, by decide, by decide, by decide, by decide⟩)

/-- An ordinary in-stock record: `soldDate` is null. -/
def nullSoldDateItem : Item :=
  { id := "a", recordType := .item, name := "n", category := .other,
    purchasePrice := 1, purchaseDate := "2025-01-10", miscExpense := 0,
    consumableExpense := 0, sellingPrice := none, soldDate := none,
    status := .inStock, memo := "", createdAt := "t" }

set_option maxRecDepth 400000 in
/-- Counterexample to C3 as stated: exporting a record with null
`soldDate` and re-importing does not reproduce it — the `soldDate` comes
back as the string `""` (the empty cell re-enters as a string, which the
Normalizer accepts). -/
theorem csv_roundtrip_counterexample :
    rowsToItems (parseCsv (serializeCsv [nullSoldDateItem]))
        ≠ [nullSoldDateItem]
    ∧ rowsToItems (parseCsv (serializeCsv [nullSoldDateItem]))
        = [{ nullSoldDateItem with soldDate := some "" }] := by
  decide
